import Mathlib

/-!
Verification development for a statechart interpreter core (an xstate fork).

The repository sources available are src/src/State.ts (the State class and
stateValuesEqual), plus the test suites src/test/actions.test.ts and the
interpreter test file.  StateValue, stateValuesEqual and State.changed are
embedded directly from src/src/State.ts.  The transition algorithm
(Machine/StateNode) and the interpreter are code of this repository that is
not under src/ (only their tests import them), so they are modelled from the
specification (spec sections 3, 4.B, 4.C, 4.D) and validated against the
expectations recorded in the test files.
-/

namespace XCore

/-- StateValue, from the data model in src/src/State.ts and the spec: either a
leaf identifier (string) or a mapping from child-region name to a nested
StateValue.  The mapping is represented as an association list; JavaScript
objects have pairwise distinct keys, which is captured by the predicate
svWf below. -/
inductive SV where
  | leaf : String → SV
  | node : List (String × SV) → SV

/-- Typeof tag of a StateValue as JavaScript sees it (string or object);
used by the embedding of State.changed, which compares typeof tags. -/
def SV.jsTypeOf : SV → String
  | .leaf _ => "string"
  | .node _ => "object"

/-- Property lookup on an association list, modelling the JavaScript member
access b[key] on an object (none models undefined). -/
def alookup {α : Type} : List (String × α) → String → Option α
  | [], _ => none
  | (k2, v) :: rest, k => if k2 = k then some v else alookup rest k

mutual

/-- Embedding of stateValuesEqual from src/src/State.ts.  A leaf compares by
string equality; a leaf never equals a map (the typeof guard in the source);
two maps compare by equal key counts and, for every key of the first map, a
structurally equal value under the same key of the second map.  The lookup of
a key that is absent from the second map yields JavaScript undefined in the
source; comparing a value against undefined is modelled from the spec wording
that StateValue equality is structural (the helper keys lives in utils.ts,
which is not under src/), so an absent key compares unequal. -/
def stateValuesEqual : SV → SV → Bool
  | .leaf a, .leaf b => a == b
  | .leaf _, .node _ => false
  | .node _, .leaf _ => false
  | .node a, .node b => a.length == b.length && svEqualKeys a b

/-- Helper for stateValuesEqual: the aKeys.every loop of the source, walking
the entries of the first map and looking each key up in the second. -/
def svEqualKeys : List (String × SV) → List (String × SV) → Bool
  | [], _ => true
  | (k, v) :: rest, b =>
    (match alookup b k with
     | some w => stateValuesEqual v w
     | none => false) && svEqualKeys rest b

end

mutual

/-- Plain positional structural equality on SV, used only to build a
DecidableEq instance for the Lean development. -/
def SV.beq : SV → SV → Bool
  | .leaf a, .leaf b => a == b
  | .node a, .node b => SV.beqList a b
  | _, _ => false

/-- Positional equality on association lists of SV. -/
def SV.beqList : List (String × SV) → List (String × SV) → Bool
  | [], [] => true
  | (k, v) :: r, (k2, v2) :: r2 => k == k2 && SV.beq v v2 && SV.beqList r r2
  | _, _ => false

end

/-- Pairwise distinctness of a key list. -/
def keysDistinct : List String → Bool
  | [] => true
  | k :: rest => !(rest.contains k) && keysDistinct rest

mutual

/-- Well-formedness of an SV as a JavaScript value: every map has pairwise
distinct keys.  Values that the runtime actually builds (from object
literals) always satisfy this. -/
def svWf : SV → Bool
  | .leaf _ => true
  | .node l => keysDistinct (l.map Prod.fst) && svWfList l

/-- Well-formedness of every value of an association list. -/
def svWfList : List (String × SV) → Bool
  | [] => true
  | (_, v) :: rest => svWf v && svWfList rest

end

/-- Course-of-values induction for SV: to prove a property of every SV it
suffices to prove it for leaves and for maps assuming it for every value
stored in the map. -/
theorem SV.strongInd (P : SV → Prop)
    (hleaf : ∀ s, P (SV.leaf s))
    (hnode : ∀ l, (∀ kv ∈ l, P kv.2) → P (SV.node l)) :
    ∀ a, P a := by
  intro a
  induction a using SV.rec (motive_2 := fun l => ∀ kv ∈ l, P kv.2)
    (motive_3 := fun kv => P kv.2) with
  | leaf s => exact hleaf s
  | node l ih => exact hnode l ih
  | nil => rename_i kv h; cases h
  | cons hd tl ih1 ih2 =>
      rename_i kv h
      rcases List.mem_cons.mp h with h | h
      · exact h ▸ ih1
      · exact ih2 kv h
  | mk a b hb => exact hb

theorem SV.beqList_eq_true_iff : ∀ (l m : List (String × SV)),
    (∀ kv ∈ l, ∀ b, (SV.beq kv.2 b = true ↔ kv.2 = b)) →
    (SV.beqList l m = true ↔ l = m) := by
  intro l
  induction l with
  | nil =>
      intro m _
      cases m with
      | nil => simp [SV.beqList]
      | cons h t =>
          show false = true ↔ _
          simp
  | cons hd tl ih =>
      intro m hsub
      cases m with
      | nil =>
          show false = true ↔ _
          simp
      | cons hd2 tl2 =>
          have hhd : ∀ b, (SV.beq hd.2 b = true ↔ hd.2 = b) :=
            hsub hd (List.mem_cons_self hd tl)
          have htl : SV.beqList tl tl2 = true ↔ tl = tl2 :=
            ih tl2 (fun kv hkv => hsub kv (List.mem_cons_of_mem hd hkv))
          cases hd with
          | mk k v =>
            cases hd2 with
            | mk k2 v2 =>
              show (k == k2 && SV.beq v v2 && SV.beqList tl tl2) = true ↔ _
              simp only [Bool.and_eq_true, beq_iff_eq, List.cons.injEq, Prod.mk.injEq]
              constructor
              · rintro ⟨⟨hk, hv⟩, hr⟩
                exact ⟨⟨hk, (hhd v2).mp hv⟩, htl.mp hr⟩
              · rintro ⟨⟨hk, hv⟩, hr⟩
                exact ⟨⟨hk, (hhd v2).mpr hv⟩, htl.mpr hr⟩

theorem SV.beq_eq_true_iff : ∀ a b : SV, SV.beq a b = true ↔ a = b := by
  intro a
  induction a using SV.strongInd with
  | hleaf s =>
      intro b
      cases b with
      | leaf t =>
          show (s == t) = true ↔ _
          simp
      | node l =>
          show false = true ↔ _
          simp
  | hnode l ih =>
      intro b
      cases b with
      | leaf t =>
          show false = true ↔ _
          simp
      | node m =>
          have hl : SV.beqList l m = true ↔ l = m :=
            SV.beqList_eq_true_iff l m (fun kv hkv b => ih kv hkv b)
          show SV.beqList l m = true ↔ _
          rw [hl]
          simp

instance : DecidableEq SV := fun a b =>
  decidable_of_iff (SV.beq a b = true) (SV.beq_eq_true_iff a b)

/-- List.contains at false means non-membership (strings). -/
theorem contains_eq_false_iff (l : List String) (a : String) :
    l.contains a = false ↔ a ∉ l := by
  induction l with
  | nil => simp
  | cons hd tl ih =>
      simp only [List.contains_cons, Bool.or_eq_false_iff, List.mem_cons]
      constructor
      · rintro ⟨h1, h2⟩ (h | h)
        · rw [h] at h1; simp at h1
        · exact ih.mp h2 h
      · intro h
        refine ⟨?_, ih.mpr (fun hm => h (Or.inr hm))⟩
        have hne : a ≠ hd := fun he => h (Or.inl he)
        simpa [beq_eq_false_iff_ne] using hne

theorem alookup_of_mem_of_distinct {α : Type} (l : List (String × α)) (k : String) (v : α)
    (hn : keysDistinct (l.map Prod.fst) = true) (h : (k, v) ∈ l) :
    alookup l k = some v := by
  induction l with
  | nil => cases h
  | cons hd tl ih =>
      have hn2 : (List.map Prod.fst tl).contains hd.1 = false ∧
          keysDistinct (List.map Prod.fst tl) = true := by
        have hx := hn
        simp only [List.map_cons, keysDistinct, Bool.and_eq_true, Bool.not_eq_true'] at hx
        exact hx
      rcases List.mem_cons.mp h with hEq | hMem
      · subst hEq
        simp [alookup]
      · have hk : hd.1 ≠ k := by
          intro he
          exact (contains_eq_false_iff _ _).mp hn2.1
            (he ▸ (List.mem_map.mpr ⟨(k, v), hMem, rfl⟩))
        cases hd with
        | mk a b =>
          simp only [alookup, if_neg hk]
          exact ih hn2.2 hMem

/-- Lookup success yields a member of the list. -/
theorem mem_of_alookup_eq_some {α : Type} (l : List (String × α)) (k : String) (v : α)
    (h : alookup l k = some v) : (k, v) ∈ l := by
  induction l with
  | nil => simp [alookup] at h
  | cons hd tl ih =>
      cases hd with
      | mk a b =>
        simp only [alookup] at h
        by_cases hk : a = k
        · rw [if_pos hk] at h
          simp only [Option.some.injEq] at h
          exact List.mem_cons.mpr (Or.inl (by rw [hk, h]))
        · rw [if_neg hk] at h
          exact List.mem_cons.mpr (Or.inr (ih h))

/-- Lookup success means the key occurs among the keys. -/
theorem mem_keys_of_alookup_eq_some {α : Type} (l : List (String × α)) (k : String) (v : α)
    (h : alookup l k = some v) : k ∈ l.map Prod.fst :=
  List.mem_map.mpr ⟨(k, v), mem_of_alookup_eq_some l k v h, rfl⟩

/-- Distinct keys as a Nodup statement. -/
theorem keysDistinct_iff_nodup (l : List String) :
    keysDistinct l = true ↔ l.Nodup := by
  induction l with
  | nil => simp [keysDistinct]
  | cons hd tl ih =>
      simp only [keysDistinct, Bool.and_eq_true, Bool.not_eq_true', List.nodup_cons]
      rw [contains_eq_false_iff, ih]

/-- Unfolding of svWfList as a universal statement. -/
theorem svWfList_iff (l : List (String × SV)) :
    svWfList l = true ↔ ∀ kv ∈ l, svWf kv.2 = true := by
  induction l with
  | nil => simp [svWfList]
  | cons hd tl ih =>
      cases hd with
      | mk k v =>
        show (svWf v && svWfList tl) = true ↔ _
        simp only [Bool.and_eq_true, ih, List.mem_cons]
        constructor
        · rintro ⟨h1, h2⟩ kv (hkv | hkv)
          · rw [hkv]; exact h1
          · exact h2 kv hkv
        · intro h
          exact ⟨h (k, v) (Or.inl rfl), fun kv hkv => h kv (Or.inr hkv)⟩

/-- The aKeys.every loop succeeds exactly when every entry of the first map
has a structurally equal partner under its key in the second map. -/
theorem svEqualKeys_iff (l b : List (String × SV)) :
    svEqualKeys l b = true ↔
      ∀ kv ∈ l, ∃ w, alookup b kv.1 = some w ∧ stateValuesEqual kv.2 w = true := by
  induction l with
  | nil => simp [svEqualKeys]
  | cons hd tl ih =>
      cases hd with
      | mk k v =>
        show ((match alookup b k with
               | some w => stateValuesEqual v w
               | none => false) && svEqualKeys tl b) = true ↔ _
        simp only [Bool.and_eq_true, ih, List.mem_cons]
        constructor
        · rintro ⟨h1, h2⟩ kv (hkv | hkv)
          · rw [hkv]
            cases hb : alookup b k with
            | none => rw [hb] at h1; cases h1
            | some w => rw [hb] at h1; exact ⟨w, rfl, h1⟩
          · exact h2 kv hkv
        · intro h
          refine ⟨?_, fun kv hkv => h kv (Or.inr hkv)⟩
          obtain ⟨w, hw, he⟩ := h (k, v) (Or.inl rfl)
          rw [hw]
          exact he

/-- stateValuesEqual is reflexive on well-formed values. -/
theorem stateValuesEqual_refl (a : SV) (h : svWf a = true) :
    stateValuesEqual a a = true := by
  induction a using SV.strongInd with
  | hleaf s => simp [stateValuesEqual]
  | hnode l ih =>
      have hw : (keysDistinct (l.map Prod.fst) && svWfList l) = true := h
      simp only [Bool.and_eq_true] at hw
      show (l.length == l.length && svEqualKeys l l) = true
      simp only [Bool.and_eq_true, beq_self_eq_true, true_and]
      rw [svEqualKeys_iff]
      intro kv hkv
      refine ⟨kv.2, ?_, ?_⟩
      · exact alookup_of_mem_of_distinct l kv.1 kv.2 hw.1 (by
          cases kv with
          | mk x y => exact hkv)
      · exact ih kv hkv ((svWfList_iff l).mp hw.2 kv hkv)

/-- On well-formed values, a successful equality in one direction succeeds in
the other direction too. -/
theorem stateValuesEqual_symm_true (a : SV) :
    ∀ b, svWf a = true → svWf b = true →
      stateValuesEqual a b = true → stateValuesEqual b a = true := by
  induction a using SV.strongInd with
  | hleaf s =>
      intro b _ _ hab
      cases b with
      | leaf t =>
          have : (s == t) = true := hab
          show (t == s) = true
          simp only [beq_iff_eq] at this ⊢
          exact this.symm
      | node m => cases hab
  | hnode l ih =>
      intro b hwa hwb hab
      cases b with
      | leaf t => cases hab
      | node m =>
          have hw1 : (keysDistinct (l.map Prod.fst) && svWfList l) = true := hwa
          have hw2 : (keysDistinct (m.map Prod.fst) && svWfList m) = true := hwb
          simp only [Bool.and_eq_true] at hw1 hw2
          have hab2 : (l.length == m.length && svEqualKeys l m) = true := hab
          simp only [Bool.and_eq_true, beq_iff_eq] at hab2
          obtain ⟨hlen, hkeys⟩ := hab2
          rw [svEqualKeys_iff] at hkeys
          -- key sets coincide
          have hsub : ∀ k ∈ l.map Prod.fst, k ∈ m.map Prod.fst := by
            intro k hk
            obtain ⟨kv, hkv, hfst⟩ := List.mem_map.mp hk
            obtain ⟨w, hw, _⟩ := hkeys kv hkv
            exact hfst ▸ mem_keys_of_alookup_eq_some m kv.1 w hw
          have hnl : (l.map Prod.fst).Nodup := (keysDistinct_iff_nodup _).mp hw1.1
          have hnm : (m.map Prod.fst).Nodup := (keysDistinct_iff_nodup _).mp hw2.1
          have hfin : (l.map Prod.fst).toFinset = (m.map Prod.fst).toFinset := by
            apply Finset.eq_of_subset_of_card_le
            · intro k hk
              exact List.mem_toFinset.mpr (hsub k (List.mem_toFinset.mp hk))
            · rw [List.toFinset_card_of_nodup hnl, List.toFinset_card_of_nodup hnm]
              simp [hlen]
          have hmem : ∀ k, k ∈ m.map Prod.fst → k ∈ l.map Prod.fst := by
            intro k hk
            exact List.mem_toFinset.mp (hfin ▸ List.mem_toFinset.mpr hk)
          show (m.length == l.length && svEqualKeys m l) = true
          simp only [Bool.and_eq_true, beq_iff_eq]
          refine ⟨hlen.symm, ?_⟩
          rw [svEqualKeys_iff]
          intro kv hkv
          have hkmem : kv.1 ∈ l.map Prod.fst :=
            hmem kv.1 (List.mem_map.mpr ⟨kv, hkv, rfl⟩)
          obtain ⟨kw, hkw, hfst⟩ := List.mem_map.mp hkmem
          obtain ⟨u, hu, heq⟩ := hkeys kw hkw
          have hlook : alookup m kw.1 = some kv.2 := by
            rw [hfst]
            exact alookup_of_mem_of_distinct m kv.1 kv.2 hw2.1 (by
              cases kv with
              | mk x y => exact hkv)
          have huv : u = kv.2 := by
            rw [hlook] at hu
            exact (Option.some.inj hu).symm
          refine ⟨kw.2, ?_, ?_⟩
          · rw [← hfst]
            exact alookup_of_mem_of_distinct l kw.1 kw.2 hw1.1 (by
              cases kw with
              | mk x y => exact hkw)
          · apply ih kw hkw kv.2
            · exact (svWfList_iff l).mp hw1.2 kw hkw
            · exact (svWfList_iff m).mp hw2.2 kv hkv
            · rw [← huv]; exact heq

/-- stateValuesEqual is symmetric on well-formed values. -/
theorem stateValuesEqual_symm (a b : SV) (ha : svWf a = true) (hb : svWf b = true) :
    stateValuesEqual a b = stateValuesEqual b a := by
  cases h1 : stateValuesEqual a b with
  | true => exact (stateValuesEqual_symm_true a b ha hb h1).symm
  | false =>
      cases h2 : stateValuesEqual b a with
      | true =>
          have := stateValuesEqual_symm_true b a hb ha h2
          rw [this] at h1
          cases h1
      | false => rfl

/-!
Action model (spec 4.B) and the State class (src/src/State.ts).

Events are modelled by their type string: none of the machines the claims
exercise reads an event payload, and guards receive the event type.
-/

/-- Event type string. -/
abbrev EvType := String

/-- Modelled from the spec: the payload of a resolved action object
(spec 4.B).  Custom actions carry an opaque executor; it is modelled by the
name of the implementation looked up in the machine options (none when the
name has no implementation, the null executor of the spec).  Assign and log
carry their expressions over (context, event); send carries event type,
optional delay and resolved id; cancel carries the id to cancel. -/
inductive APayload (C : Type) where
  | custom (exec : Option String)
  | assign (f : C → EvType → C)
  | log (f : C → EvType → C)
  | send (evt : EvType) (delay : Option Nat) (id : String)
  | cancel (id : String)

/-- Modelled from the spec: a resolved action object with its type tag
(spec 4.B: every action carries a type tag). -/
structure ActionObject (C : Type) where
  type : String
  payload : APayload C

/-- The executor surfaced on an action object: for custom actions the looked
up implementation or none; built-in actions are realized by the interpreter
and reported with their own tag. -/
def ActionObject.executor {C : Type} : ActionObject C → Option String
  | ⟨_, .custom e⟩ => e
  | ⟨t, _⟩ => some t

/-- Whether an action object is an assign action. -/
def ActionObject.isAssign {C : Type} : ActionObject C → Bool
  | ⟨_, .assign _⟩ => true
  | _ => false

/-- Embedding of the State class of src/src/State.ts restricted to the fields
the claims inspect: value, context, the event that produced the state, the
surfaced action list and the previous state (history).  The remaining fields
(activities, meta, events, historyValue, tree) are not read by any claim. -/
inductive XState (C : Type) where
  | mk (value : SV) (context : C) (event : EvType)
       (actions : List (ActionObject C)) (history : Option (XState C))

/-- The finite state value. -/
def XState.value {C : Type} : XState C → SV
  | .mk v _ _ _ _ => v

/-- The extended state. -/
def XState.context {C : Type} : XState C → C
  | .mk _ c _ _ _ => c

/-- The event that produced this state. -/
def XState.event {C : Type} : XState C → EvType
  | .mk _ _ e _ _ => e

/-- The surfaced action list. -/
def XState.actions {C : Type} : XState C → List (ActionObject C)
  | .mk _ _ _ a _ => a

/-- The previous state. -/
def XState.history {C : Type} : XState C → Option (XState C)
  | .mk _ _ _ _ h => h

/-- Embedding of the changed getter of src/src/State.ts: undefined (none)
without a history; otherwise true when there are actions, or the typeof tags
of the two values differ, or stateValuesEqual fails. -/
def XState.changed {C : Type} : XState C → Option Bool
  | .mk _ _ _ _ none => none
  | .mk v _ _ acts (some h) =>
      some ((acts.length != 0)
        || (SV.jsTypeOf v != SV.jsTypeOf (XState.value h))
        || !stateValuesEqual v (XState.value h))

/-- Values with different typeof tags are never structurally equal, so the
typeof disjunct of changed is subsumed by the stateValuesEqual disjunct. -/
theorem stateValuesEqual_eq_false_of_jsTypeOf_ne (a b : SV)
    (h : a.jsTypeOf ≠ b.jsTypeOf) : stateValuesEqual a b = false := by
  cases a with
  | leaf s =>
      cases b with
      | leaf t => exact absurd rfl h
      | node m => rfl
  | node l =>
      cases b with
      | leaf t => rfl
      | node m => exact absurd rfl h

/-!
Machine model.  The StateNode tree and the pure transition function are code
of this repository that is not under src/; everything below is modelled from
the spec (sections 3 and 4.C) and validated against the expectations of
src/test/actions.test.ts and the interpreter test file.
-/

/-- Errors of the core (spec section 7).  Guard and action expressions are
total functions in this model, so guard and action execution errors do not
arise. -/
inductive MErr where
  | invalidStateValue (key : String)
  | invalidMachineDefinition (key : String)
  | interpreterNotStarted
deriving DecidableEq, Repr

/-- Modelled from the spec: an action as written in a machine definition
(spec 4.B): a string name resolved against the machine options, or an inline
assign, log, send or cancel. -/
inductive ActionDef (C : Type) where
  | name (n : String)
  | assign (f : C → EvType → C)
  | log (f : C → EvType → C)
  | send (evt : EvType) (delay : Option Nat) (id : Option String)
  | cancel (id : String)

/-- Modelled from the spec: an entry of the machine options action map: a
plain function implementation, or an assign implementation (spec 4.B, the
updateContext example of the tests). -/
inductive ActionImpl (C : Type) where
  | fn
  | assignImpl (f : C → EvType → C)

/-- Modelled from the spec: a transition definition (spec section 3): an
optional target (a sibling key of the node the transition is defined on;
targetless transitions only run actions), an optional guard over (context,
event), an ordered action list and the internal flag. -/
structure TransitionDef (C : Type) where
  target : Option String
  cond : Option (C → EvType → Bool)
  actions : List (ActionDef C)
  internal : Bool

/-- Node kinds (spec section 3; history nodes are not exercised by any
claim and are left out of the modelled fragment). -/
inductive NodeKind where
  | atomic
  | compound
  | parallel
  | final
deriving DecidableEq, Repr

/-- Modelled from the spec: a state node (spec section 3): local key, kind,
initial child key for compound nodes, child list in declaration order, the
event-to-transitions mapping, and the onEntry and onExit action lists. -/
inductive Node (C : Type) where
  | mk (key : String) (kind : NodeKind) (initialKey : Option String)
       (states : List (String × Node C))
       (onMap : List (EvType × List (TransitionDef C)))
       (entryActs : List (ActionDef C))
       (exitActs : List (ActionDef C))

/-- The local key of a node. -/
def Node.key {C : Type} : Node C → String
  | .mk k _ _ _ _ _ _ => k

/-- The kind of a node. -/
def Node.kind {C : Type} : Node C → NodeKind
  | .mk _ k _ _ _ _ _ => k

/-- The children of a node in declaration order. -/
def Node.statesOf {C : Type} : Node C → List (String × Node C)
  | .mk _ _ _ s _ _ _ => s

/-- The event mapping of a node. -/
def Node.onMapOf {C : Type} : Node C → List (EvType × List (TransitionDef C))
  | .mk _ _ _ _ o _ _ => o

/-- The entry actions of a node. -/
def Node.entryActsOf {C : Type} : Node C → List (ActionDef C)
  | .mk _ _ _ _ _ en _ => en

/-- The exit actions of a node. -/
def Node.exitActsOf {C : Type} : Node C → List (ActionDef C)
  | .mk _ _ _ _ _ _ ex => ex

/-- Modelled from the spec: a machine: id, root node, initial context and
the action implementation map given in the machine options. -/
structure Machine (C : Type) where
  id : String
  root : Node C
  initialContext : C
  actionMap : List (String × ActionImpl C)

/-- Modelled from the spec: action resolution (spec 4.B): a string name is
looked up in the machine options; a found function keeps the name as type
with its executor; a found assign implementation becomes an assign action;
an unknown name keeps the name with a null executor and the transition is
not failed.  Inline actions resolve to their own tags; a send without an
explicit id is keyed by its event type. -/
def resolveAct {C : Type} (amap : List (String × ActionImpl C)) : ActionDef C → ActionObject C
  | .name n =>
      match alookup amap n with
      | some .fn => ⟨n, .custom (some n)⟩
      | some (.assignImpl f) => ⟨"xstate.assign", .assign f⟩
      | none => ⟨n, .custom none⟩
  | .assign f => ⟨"xstate.assign", .assign f⟩
  | .log f => ⟨"xstate.log", .log f⟩
  | .send evt d id => ⟨"xstate.send", .send evt d (id.getD evt)⟩
  | .cancel id => ⟨"xstate.cancel", .cancel id⟩

/-- Resolution of an action list, in order. -/
def resolveActs {C : Type} (amap : List (String × ActionImpl C))
    (l : List (ActionDef C)) : List (ActionObject C) :=
  l.map (resolveAct amap)

/-- A missing guard always passes. -/
def condHolds {C : Type} (cond : Option (C → EvType → Bool)) (ctx : C) (e : EvType) : Bool :=
  match cond with
  | none => true
  | some g => g ctx e

/-- Modelled from the spec: transition selection within one node (spec 4.C
step 2): the first transition of the candidate list whose guard passes. -/
def selectTransition {C : Type} : List (TransitionDef C) → C → EvType →
    Option (TransitionDef C)
  | [], _, _ => none
  | tr :: rest, ctx, e =>
      if condHolds tr.cond ctx e then some tr else selectTransition rest ctx e

/-- Selection against the event mapping of one node. -/
def selectOn {C : Type} (onMap : List (EvType × List (TransitionDef C)))
    (e : EvType) (ctx : C) : Option (TransitionDef C) :=
  match alookup onMap e with
  | none => none
  | some trs => selectTransition trs ctx e

/-- The configuration below a node, as stored in a parallel region map (an
atomic region stores an empty map). -/
def underToSV : Option SV → SV
  | none => .node []
  | some v => v

/-- Rebuild the configuration of a node from the key of its active child and
the configuration below that child. -/
def reattach (k : String) : Option SV → SV
  | none => .leaf k
  | some v => .node [(k, v)]

/-- Split the configuration of a compound node into the active child key and
the configuration below that child. -/
def splitUnder : SV → String × Option SV
  | .leaf k => (k, none)
  | .node [] => ("", none)
  | .node ((k, s) :: _) => (k, some s)

/-- The configuration below a region node given its stored map entry. -/
def regionUnder {C : Type} (n : Node C) (sv : Option SV) : Option SV :=
  match n.kind with
  | .atomic | .final => none
  | _ => sv

mutual

/-- Modelled from the spec: entering a node (spec 4.C step 5): its onEntry
actions, then descending along initial for compound nodes and into every
region in declaration order for parallel nodes, giving parent-to-child entry
order; also returns the configuration below the node. -/
def enterNode {C : Type} (amap : List (String × ActionImpl C)) :
    Node C → Except MErr (Option SV × List (ActionObject C))
  | .mk key kind initialKey states _ en _ =>
    match kind with
    | .atomic => .ok (none, resolveActs amap en)
    | .final => .ok (none, resolveActs amap en)
    | .compound =>
        match initialKey with
        | none => .error (.invalidMachineDefinition key)
        | some i => do
            let (u, acts) ← enterChild amap states i
            .ok (some (reattach i u), resolveActs amap en ++ acts)
    | .parallel => do
        let (ps, acts) ← enterRegions amap states
        .ok (some (.node ps), resolveActs amap en ++ acts)

/-- Search the child list for a key and enter the child found; an unknown
key is an invalid state value. -/
def enterChild {C : Type} (amap : List (String × ActionImpl C)) :
    List (String × Node C) → String → Except MErr (Option SV × List (ActionObject C))
  | [], k => .error (.invalidStateValue k)
  | (k2, n) :: rest, k =>
      if k2 = k then enterNode amap n else enterChild amap rest k

/-- Enter every region of a parallel node in declaration order. -/
def enterRegions {C : Type} (amap : List (String × ActionImpl C)) :
    List (String × Node C) → Except MErr (List (String × SV) × List (ActionObject C))
  | [] => .ok ([], [])
  | (k, n) :: rest => do
      let (u, acts) ← enterNode amap n
      let (ps, more) ← enterRegions amap rest
      .ok ((k, underToSV u) :: ps, acts ++ more)

end

mutual

/-- Modelled from the spec: exiting the active subtree of a node (spec 4.C
step 4/6): the exit actions of the active descendants first, then the nodes
own onExit actions, giving child-to-parent exit order; parallel regions exit
in declaration order. -/
def exitNode {C : Type} (amap : List (String × ActionImpl C)) :
    Node C → Option SV → Except MErr (List (ActionObject C))
  | .mk _ kind _ states _ _ ex, under =>
    match kind with
    | .atomic => .ok (resolveActs amap ex)
    | .final => .ok (resolveActs amap ex)
    | .compound =>
        match under with
        | some u => do
            let (k, sub) := splitUnder u
            let inner ← exitChild amap states k sub
            .ok (inner ++ resolveActs amap ex)
        | none => .ok (resolveActs amap ex)
    | .parallel =>
        match under with
        | some (.node pairs) => do
            let inner ← exitRegions amap states pairs
            .ok (inner ++ resolveActs amap ex)
        | _ => .ok (resolveActs amap ex)

/-- Search the child list for the active child and exit it. -/
def exitChild {C : Type} (amap : List (String × ActionImpl C)) :
    List (String × Node C) → String → Option SV → Except MErr (List (ActionObject C))
  | [], k, _ => .error (.invalidStateValue k)
  | (k2, n) :: rest, k, sub =>
      if k2 = k then exitNode amap n sub else exitChild amap rest k sub

/-- Exit every region of a parallel node in declaration order. -/
def exitRegions {C : Type} (amap : List (String × ActionImpl C)) :
    List (String × Node C) → List (String × SV) → Except MErr (List (ActionObject C))
  | [], _ => .ok []
  | (k, n) :: rest, pairs => do
      let first ← exitNode amap n (regionUnder n (alookup pairs k))
      let more ← exitRegions amap rest pairs
      .ok (first ++ more)

end

mutual

/-- Modelled from the spec: resolve a user-supplied, possibly partial
configuration below a node to canonical form (spec 4.A resolve): missing
parts are filled from initial, unknown keys fail with InvalidStateValue. -/
def resolveUnderO {C : Type} : Node C → Option SV → Except MErr (Option SV)
  | .mk key kind initialKey states _ _ _, v =>
    match kind with
    | .atomic | .final =>
        match v with
        | none => .ok none
        | some (.node []) => .ok none
        | some _ => .error (.invalidStateValue key)
    | .compound =>
        match v with
        | none =>
            match initialKey with
            | none => .error (.invalidMachineDefinition key)
            | some i => do
                let u ← resolveChild states i none
                .ok (some (reattach i u))
        | some (.leaf k) => do
            let u ← resolveChild states k none
            .ok (some (reattach k u))
        | some (.node [(k, sub)]) => do
            let u ← resolveChild states k (some sub)
            .ok (some (reattach k u))
        | some (.node _) => .error (.invalidStateValue key)
    | .parallel =>
        match v with
        | none => do
            let ps ← resolveRegions states []
            .ok (some (.node ps))
        | some (.node pairs) => do
            let ps ← resolveRegions states pairs
            .ok (some (.node ps))
        | some (.leaf _) => .error (.invalidStateValue key)

/-- Search the child list for a key and resolve below the child found. -/
def resolveChild {C : Type} : List (String × Node C) → String → Option SV →
    Except MErr (Option SV)
  | [], k, _ => .error (.invalidStateValue k)
  | (k2, n) :: rest, k, sub =>
      if k2 = k then resolveUnderO n sub else resolveChild rest k sub

/-- Resolve every region of a parallel node, filling absent regions from
their defaults. -/
def resolveRegions {C : Type} : List (String × Node C) → List (String × SV) →
    Except MErr (List (String × SV))
  | [], _ => .ok []
  | (k, n) :: rest, pairs => do
      let u ← resolveUnderO n (alookup pairs k)
      let more ← resolveRegions rest pairs
      .ok ((k, underToSV u) :: more)

end

/-- Result of attempting a transition in the subtree of one node: a fired
transition with the new configuration below the node and the collected exit,
transition and entry actions; a transition selected on the node itself whose
sibling target the parent must resolve; or unhandled. -/
inductive TR (C : Type) where
  | fired (value : Option SV) (exits : List (ActionObject C))
          (transActs : List (ActionObject C)) (entries : List (ActionObject C))
  | bubble (tr : TransitionDef C)
  | unhandled

/-- Modelled from the spec: resolve a transition selected on a child against
the child list of its parent (spec 4.C steps 3 to 6).  A targetless
transition and an internal self-transition run only their actions; otherwise
the source subtree is exited (child-to-parent), the target entered
(parent-to-child after resolving initial), and the new configuration is the
target branch. -/
def applyBubble {C : Type} (amap : List (String × ActionImpl C))
    (states : List (String × Node C)) (srcKey : String) (srcUnder : Option SV)
    (tr : TransitionDef C) : Except MErr (TR C) :=
  match tr.target with
  | none => .ok (.fired (some (reattach srcKey srcUnder)) [] (resolveActs amap tr.actions) [])
  | some t =>
      if tr.internal && (t == srcKey) then
        .ok (.fired (some (reattach srcKey srcUnder)) [] (resolveActs amap tr.actions) [])
      else do
        let exits ← exitChild amap states srcKey srcUnder
        let (u, entries) ← enterChild amap states t
        .ok (.fired (some (reattach t u)) exits (resolveActs amap tr.actions) entries)

mutual

/-- Modelled from the spec: the transition attempt over the subtree of one
node (spec 4.C step 2): the deepest active node that handles the event wins;
an active child is consulted before the node itself; parallel regions are
attempted in declaration order and their results are combined. -/
def transNode {C : Type} (amap : List (String × ActionImpl C)) :
    Node C → Option SV → EvType → C → Except MErr (TR C)
  | .mk key kind _ states onMap _ _, under, e, ctx =>
    match kind with
    | .atomic =>
        .ok (match selectOn onMap e ctx with
             | some tr => .bubble tr
             | none => .unhandled)
    | .final =>
        .ok (match selectOn onMap e ctx with
             | some tr => .bubble tr
             | none => .unhandled)
    | .compound =>
        match under with
        | some u => do
            let (k, sub) := splitUnder u
            let r ← transChild amap states k sub e ctx
            match r with
            | .fired v ex ts ens => .ok (.fired (some (reattach k v)) ex ts ens)
            | .bubble tr => applyBubble amap states k sub tr
            | .unhandled =>
                .ok (match selectOn onMap e ctx with
                     | some tr => .bubble tr
                     | none => .unhandled)
        | none => .error (.invalidStateValue key)
    | .parallel =>
        match under with
        | some (.node pairs) => do
            let (ps, ex, ts, ens, anyFired) ← transRegions amap states pairs e ctx
            if anyFired then
              .ok (.fired (some (.node ps)) ex ts ens)
            else
              .ok (match selectOn onMap e ctx with
                   | some tr => .bubble tr
                   | none => .unhandled)
        | _ => .error (.invalidStateValue key)

/-- Search the child list for the active child and attempt the transition
inside it. -/
def transChild {C : Type} (amap : List (String × ActionImpl C)) :
    List (String × Node C) → String → Option SV → EvType → C → Except MErr (TR C)
  | [], k, _, _, _ => .error (.invalidStateValue k)
  | (k2, n) :: rest, k, sub, e, ctx =>
      if k2 = k then transNode amap n sub e ctx else transChild amap rest k sub e ctx

/-- Attempt the transition in every region in declaration order; regions
that fired contribute their exit, transition and entry actions in that
order per phase; regions that did not fire keep their configuration.  A
transition selected directly on a region root (whose target would be a
sibling region) is outside the modelled fragment and treated as unhandled. -/
def transRegions {C : Type} (amap : List (String × ActionImpl C)) :
    List (String × Node C) → List (String × SV) → EvType → C →
    Except MErr (List (String × SV) × List (ActionObject C) ×
      List (ActionObject C) × List (ActionObject C) × Bool)
  | [], _, _, _ => .ok ([], [], [], [], false)
  | (k, n) :: rest, pairs, e, ctx => do
      let sub := alookup pairs k
      let r ← transNode amap n (regionUnder n sub) e ctx
      let (ps, ex, ts, ens, f) ← transRegions amap rest pairs e ctx
      match r with
      | .fired v rex rts rens =>
          .ok ((k, underToSV v) :: ps, rex ++ ex, rts ++ ts, rens ++ ens, true)
      | _ =>
          .ok ((k, underToSV (regionUnder n sub)) :: ps, ex, ts, ens, f)

end

/-- Modelled from the spec: the raise-phase of a step (spec 4.C step 7):
every assign in the assembled action list updates the working context in
list order. -/
def applyAssigns {C : Type} (ctx : C) (e : EvType) (l : List (ActionObject C)) : C :=
  l.foldl (fun c a => match a.payload with | .assign f => f c e | _ => c) ctx

/-- Modelled from the spec: assign actions are removed from the surfaced
action list (spec 4.C step 7). -/
def surfacedActs {C : Type} (l : List (ActionObject C)) : List (ActionObject C) :=
  l.filter (fun a => !a.isAssign)

/-- Modelled from the spec: assembling the next State (spec 4.C steps 6 to
8): actions ordered exits, then transition actions, then entries; assigns
applied to produce the next context and removed from the surfaced list; the
previous State recorded as history. -/
def assembleState {C : Type} (s : XState C) (e : EvType) (v : SV)
    (ex ts ens : List (ActionObject C)) : XState C :=
  XState.mk v (applyAssigns (XState.context s) e (ex ++ ts ++ ens)) e
    (surfacedActs (ex ++ ts ++ ens)) (some s)

/-- Modelled from the spec: the pure transition function (spec 4.C).  The
current value is resolved to canonical form, the transition attempt runs
over the root subtree, and the result is assembled.  A transition selected
on the machine root itself resolves its target among the root children and
never exits the root.  An event with no enabled transition yields the same
value and context with an empty action list. -/
def machineTransition {C : Type} (m : Machine C) (s : XState C) (e : EvType) :
    Except MErr (XState C) := do
  let under ← resolveUnderO m.root (some (XState.value s))
  let rv := underToSV under
  let r ← transNode m.actionMap m.root under e (XState.context s)
  match r with
  | .unhandled => .ok (XState.mk rv (XState.context s) e [] (some s))
  | .fired v ex ts ens => .ok (assembleState s e (underToSV v) ex ts ens)
  | .bubble tr =>
      match tr.target with
      | none => .ok (assembleState s e rv [] (resolveActs m.actionMap tr.actions) [])
      | some t =>
          let (k, sub) := splitUnder rv
          if tr.internal && (t == k) then
            .ok (assembleState s e rv [] (resolveActs m.actionMap tr.actions) [])
          else do
            let exits ← exitChild m.actionMap (Node.statesOf m.root) k sub
            let (u, entries) ← enterChild m.actionMap (Node.statesOf m.root) t
            .ok (assembleState s e (reattach t u) exits
              (resolveActs m.actionMap tr.actions) entries)

/-- Modelled from the spec: the initial State of a machine: the entry of the
root subtree from defaults, with assigns applied, surfaced actions filtered
and no history. -/
def initialState {C : Type} (m : Machine C) : Except MErr (XState C) := do
  let (u, acts) ← enterNode m.actionMap m.root
  .ok (XState.mk (underToSV u) (applyAssigns m.initialContext "xstate.init" acts)
    "xstate.init" (surfacedActs acts) none)

/-!
Interpreter model (spec 4.D), modelled from the spec: lifecycle states,
synchronous run-to-completion steps, delayed sends through a simulated
clock, cancellation, and a read-only preview.  Virtual time advances
through increment, which fires the timers that were pending at its start
whose due time is reached, in (due time, scheduled order).
-/

/-- A scheduled delayed send. -/
structure Timer where
  due : Nat
  seq : Nat
  id : String
  evt : EvType
deriving DecidableEq, Repr

/-- Interpreter lifecycle states (spec 4.D). -/
inductive IStatus where
  | notStarted
  | running
  | stopped
deriving DecidableEq, Repr

/-- Modelled from the spec: the interpreter state: the machine, lifecycle
status, current State, virtual time, scheduling sequence counter, pending
timers, the log sink, and the list of events that have been delivered to a
step (used to state delivery properties). -/
structure Interp (C : Type) where
  machine : Machine C
  status : IStatus
  current : XState C
  now : Nat
  seqNo : Nat
  timers : List Timer
  logs : List C
  delivered : List EvType

/-- A fresh interpreter over a machine, not yet started. -/
def mkInterp {C : Type} (m : Machine C) : Interp C :=
  { machine := m, status := .notStarted,
    current := XState.mk (.leaf "") m.initialContext "" [] none,
    now := 0, seqNo := 0, timers := [], logs := [], delivered := [] }

/-- Modelled from the spec: executing one surfaced action (spec 4.B table):
log evaluates its expression against the updated context and appends to the
log sink; send with a delay schedules a timer keyed by its id; cancel
removes every pending timer with the id (a no-op when none exists); custom
executors have no observable effect in this model; assigns were already
applied by the transition function. -/
def execAction {C : Type} (ctx : C) (e : EvType) (i : Interp C) (a : ActionObject C) :
    Interp C :=
  match a.payload with
  | .custom _ => i
  | .assign _ => i
  | .log f => { i with logs := i.logs ++ [f ctx e] }
  | .send evt d id =>
      { i with timers := i.timers ++ [⟨i.now + d.getD 0, i.seqNo, id, evt⟩],
               seqNo := i.seqNo + 1 }
  | .cancel id => { i with timers := i.timers.filter (fun t => t.id != id) }

/-- Modelled from the spec: one step (spec 4.D): the transition function
computes the next State, the State is installed, and the surfaced actions
are executed in order against the new context. -/
def stepEvent {C : Type} (i : Interp C) (e : EvType) : Except MErr (Interp C) := do
  let s2 ← machineTransition i.machine i.current e
  let i2 := { i with current := s2, delivered := i.delivered ++ [e] }
  .ok ((XState.actions s2).foldl (execAction (XState.context s2) e) i2)

/-- Modelled from the spec: send fails with InterpreterNotStarted before
start, is silently dropped after stop, and otherwise performs a synchronous
step. -/
def send {C : Type} (i : Interp C) (e : EvType) : Except MErr (Interp C) :=
  match i.status with
  | .notStarted => .error .interpreterNotStarted
  | .stopped => .ok i
  | .running => stepEvent i e

/-- Modelled from the spec: start computes the initial State, installs it,
executes its entry actions, and is idempotent on a non-fresh interpreter. -/
def start {C : Type} (i : Interp C) : Except MErr (Interp C) :=
  match i.status with
  | .notStarted => do
      let s0 ← initialState i.machine
      let i2 := { i with status := .running, current := s0 }
      .ok ((XState.actions s0).foldl (execAction (XState.context s0) "xstate.init") i2)
  | _ => .ok i

/-- Modelled from the spec: nextState is a read-only preview: it computes
the transition from the current State and returns the interpreter
unchanged, firing nothing and touching no queue or timer. -/
def nextState {C : Type} (i : Interp C) (e : EvType) :
    Except MErr (XState C × Interp C) := do
  let s2 ← machineTransition i.machine i.current e
  .ok (s2, i)

/-- Timer order: earlier due time first, ties by scheduling order. -/
def timerLE (a b : Timer) : Bool :=
  if a.due < b.due then true
  else if b.due < a.due then false
  else decide (a.seq ≤ b.seq)

/-- Stable insertion into a timer list sorted by timerLE. -/
def insertTimer (t : Timer) : List Timer → List Timer
  | [] => [t]
  | u :: rest => if timerLE u t then u :: insertTimer t rest else t :: u :: rest

/-- Insertion sort of timers by (due time, scheduling order). -/
def sortTimers : List Timer → List Timer
  | [] => []
  | t :: rest => insertTimer t (sortTimers rest)

/-- Fire a list of due timers in order, stepping the interpreter on each
event. -/
def fireTimers {C : Type} : List Timer → Interp C → Except MErr (Interp C)
  | [], i => .ok i
  | t :: rest, i => do
      let i2 ← stepEvent i t.evt
      fireTimers rest i2

/-- Modelled from the spec: the simulated clock increment: virtual time
advances, and every timer pending at the start of the increment whose due
time is reached fires in (due time, scheduled order); timers scheduled by
the fired steps stay pending for later increments. -/
def increment {C : Type} (i : Interp C) (ms : Nat) : Except MErr (Interp C) :=
  let now2 := i.now + ms
  let dueNow := sortTimers (i.timers.filter (fun t => decide (t.due ≤ now2)))
  let pending := i.timers.filter (fun t => !(decide (t.due ≤ now2)))
  fireTimers dueNow { i with now := now2, timers := pending }

/-- Fold a sequence of clock increments. -/
def incrementAll {C : Type} (i : Interp C) : List Nat → Except MErr (Interp C)
  | [] => .ok i
  | ms :: rest => do
      let i2 ← increment i ms
      incrementAll i2 rest

/-!
Concrete machines from the test files, used to validate the model against
the recorded test expectations and as witnesses.
-/

/-- A plain transition to a sibling target with no guard and no actions. -/
def T0 {C : Type} (t : String) : TransitionDef C :=
  { target := some t, cond := none, actions := [], internal := false }

/-- A transition with an optional target, an action list and an internal
flag, and no guard. -/
def TA {C : Type} (t : Option String) (acts : List (ActionDef C)) (intl : Bool) :
    TransitionDef C :=
  { target := t, cond := none, actions := acts, internal := intl }

/-- An atomic node with entry and exit action names. -/
def atomicN {C : Type} (key : String)
    (onMap : List (EvType × List (TransitionDef C)))
    (en ex : List String) : Node C :=
  Node.mk key .atomic none [] onMap (en.map ActionDef.name) (ex.map ActionDef.name)

/-- The light machine of src/test/actions.test.ts: green, yellow and a
compound red with pedestrian substates; every state has named entry and
exit actions. -/
def lightT : Machine Unit :=
  { id := "light",
    root := Node.mk "light" .compound (some "green")
      [ ("green", atomicN "green"
          [ ("TIMER", [T0 "yellow"]),
            ("POWER_OUTAGE", [T0 "red"]),
            ("NOTHING", [T0 "green"]) ]
          ["enter_green"] ["exit_green"]),
        ("yellow", atomicN "yellow"
          [ ("TIMER", [T0 "red"]),
            ("POWER_OUTAGE", [T0 "red"]) ]
          ["enter_yellow"] ["exit_yellow"]),
        ("red", Node.mk "red" .compound (some "walk")
          [ ("walk", atomicN "walk" [("PED_COUNTDOWN", [T0 "wait"])]
              ["enter_walk"] ["exit_walk"]),
            ("wait", atomicN "wait" [("PED_COUNTDOWN", [T0 "stop"])]
              ["enter_wait"] ["exit_wait"]),
            ("stop", atomicN "stop" [] ["enter_stop"] ["exit_stop"]) ]
          [ ("TIMER", [T0 "green"]),
            ("POWER_OUTAGE", [T0 "red"]),
            ("NOTHING", [T0 "red"]) ]
          [ActionDef.name "enter_red"] [ActionDef.name "exit_red"]) ]
      [] [] [],
    initialContext := (),
    actionMap := [] }

/-- The parallel machine of src/test/actions.test.ts: two regions a and b,
each compound with two atomic children, the CHANGE event handled inside
both regions with transition actions. -/
def parallelT : Machine Unit :=
  { id := "parallelT",
    root := Node.mk "p" .parallel none
      [ ("a", Node.mk "a" .compound (some "a1")
          [ ("a1", atomicN "a1"
              [ ("CHANGE", [TA (some "a2")
                  [ActionDef.name "do_a2", ActionDef.name "another_do_a2"] false]) ]
              ["enter_a1"] ["exit_a1"]),
            ("a2", atomicN "a2" [] ["enter_a2"] ["exit_a2"]) ]
          []
          [ActionDef.name "enter_a"] [ActionDef.name "exit_a"]),
        ("b", Node.mk "b" .compound (some "b1")
          [ ("b1", atomicN "b1"
              [ ("CHANGE", [TA (some "b2") [ActionDef.name "do_b2"] false]) ]
              ["enter_b1"] ["exit_b1"]),
            ("b2", atomicN "b2" [] ["enter_b2"] ["exit_b2"]) ]
          []
          [ActionDef.name "enter_b"] [ActionDef.name "exit_b"]) ]
      [] [] [],
    initialContext := (),
    actionMap := [] }

/-- The deep machine of src/test/actions.test.ts restricted to the nodes the
CHANGE transition exercises: compound a (with a1, a2) transitions to
compound b (with b1); a carries two exit actions and b two entry actions. -/
def deepT : Machine Unit :=
  { id := "deepT",
    root := Node.mk "deep" .compound (some "a")
      [ ("a", Node.mk "a" .compound (some "a1")
          [ ("a1", atomicN "a1" [("NEXT", [T0 "a2"])] ["enter_a1"] ["exit_a1"]),
            ("a2", atomicN "a2" [] ["enter_a2"] ["exit_a2"]) ]
          [("CHANGE", [T0 "b"])]
          [ActionDef.name "enter_a"]
          [ActionDef.name "exit_a", ActionDef.name "another_exit_a"]),
        ("b", Node.mk "b" .compound (some "b1")
          [ ("b1", atomicN "b1" [] ["enter_b1"] ["exit_b1"]) ]
          []
          [ActionDef.name "enter_b", ActionDef.name "another_enter_b"]
          [ActionDef.name "exit_b"]) ]
      [] [] [],
    initialContext := (),
    actionMap := [] }

/-- The machine of the actions option suite of src/test/actions.test.ts:
context count, a root-level E transition targeting a, whose entry carries
two defined action references and one undefined name; the EVENT transition
carries a defined action and the updateContext assign reference. -/
def simpleT : Machine Nat :=
  { id := "simpleT",
    root := Node.mk "simple" .compound (some "a")
      [ ("a", Node.mk "a" .atomic none []
          [ ("EVENT", [TA (some "b")
              [ActionDef.name "definedAction", ActionDef.name "updateContext"] false]) ]
          [ActionDef.name "definedAction", ActionDef.name "definedAction",
           ActionDef.name "undefinedAction"]
          []),
        ("b", atomicN "b" [] [] []) ]
      [("E", [T0 "a"])] [] [],
    initialContext := 0,
    actionMap := [("definedAction", .fn), ("updateContext", .assignImpl (fun _ _ => 10))] }

/-- The log machine of the interpreter test file: one state x with a
targetless LOG transition carrying an assign that increments count and a
log of the context. -/
def logT : Machine Nat :=
  { id := "log",
    root := Node.mk "log" .compound (some "x")
      [ ("x", Node.mk "x" .atomic none []
          [ ("LOG", [TA none
              [ActionDef.assign (fun c _ => c + 1), ActionDef.log (fun c _ => c)] false]) ]
          [] []) ]
      [] [] [],
    initialContext := 0,
    actionMap := [] }

/-- The light machine of the interpreter test file: green and yellow
schedule a delayed TIMER send on entry; KEEP_GOING is an internal
self-transition on green that cancels the pending TIMER; red delays back to
green through its compiled after-entry send and exit cancel. -/
def lightI : Machine Unit :=
  { id := "light",
    root := Node.mk "light" .compound (some "green")
      [ ("green", Node.mk "green" .atomic none []
          [ ("TIMER", [T0 "yellow"]),
            ("KEEP_GOING", [TA (some "green") [ActionDef.cancel "TIMER"] true]) ]
          [ActionDef.send "TIMER" (some 10) none]
          []),
        ("yellow", Node.mk "yellow" .atomic none []
          [ ("TIMER", [T0 "red"]) ]
          [ActionDef.send "TIMER" (some 10) none]
          []),
        ("red", Node.mk "red" .atomic none []
          [ ("xstate.after.10.red", [T0 "green"]) ]
          [ActionDef.send "xstate.after.10.red" (some 10) none]
          [ActionDef.cancel "xstate.after.10.red"]) ]
      [] [] [],
    initialContext := (),
    actionMap := [] }

/-!
Bridging lemmas between the key-search helpers and association lookup.
-/

/-- The exit search agrees with association lookup. -/
theorem exitChild_eq_of_alookup {C : Type} (amap : List (String × ActionImpl C))
    (states : List (String × Node C)) (k : String) (n : Node C) (sub : Option SV)
    (h : alookup states k = some n) :
    exitChild amap states k sub = exitNode amap n sub := by
  induction states with
  | nil => simp [alookup] at h
  | cons hd tl ih =>
      cases hd with
      | mk k2 n2 =>
        by_cases hk : k2 = k
        · subst hk
          simp only [alookup, if_pos, Option.some.injEq] at h
          subst h
          simp [exitChild]
        · simp only [alookup, if_neg hk] at h
          simp only [exitChild, if_neg hk]
          exact ih h

/-- The entry search agrees with association lookup. -/
theorem enterChild_eq_of_alookup {C : Type} (amap : List (String × ActionImpl C))
    (states : List (String × Node C)) (k : String) (n : Node C)
    (h : alookup states k = some n) :
    enterChild amap states k = enterNode amap n := by
  induction states with
  | nil => simp [alookup] at h
  | cons hd tl ih =>
      cases hd with
      | mk k2 n2 =>
        by_cases hk : k2 = k
        · subst hk
          simp only [alookup, if_pos, Option.some.injEq] at h
          subst h
          simp [enterChild]
        · simp only [alookup, if_neg hk] at h
          simp only [enterChild, if_neg hk]
          exact ih h

/-!
The claim theorems.
-/

/-- C10: stateValuesEqual is a structural equality on StateValues: it is
reflexive and symmetric on well-formed values (JavaScript objects always
have pairwise distinct keys), and two map values compare equal exactly when
they have the same number of keys and, for every key of the first, a
structurally equal value under that key in the second; the characterization
only mentions key lookup, so it is independent of key insertion order. -/
theorem C10_stateValuesEqual_structural :
    (∀ a : SV, svWf a = true → stateValuesEqual a a = true) ∧
    (∀ a b : SV, svWf a = true → svWf b = true →
      stateValuesEqual a b = stateValuesEqual b a) ∧
    (∀ l m : List (String × SV),
      (stateValuesEqual (.node l) (.node m) = true ↔
        (l.length = m.length ∧
          ∀ kv ∈ l, ∃ w, alookup m kv.1 = some w ∧ stateValuesEqual kv.2 w = true))) := by
  refine ⟨stateValuesEqual_refl, stateValuesEqual_symm, ?_⟩
  intro l m
  show (l.length == m.length && svEqualKeys l m) = true ↔ _
  rw [Bool.and_eq_true, beq_iff_eq, svEqualKeys_iff]

/-- Witness for C10 at concrete inputs: two maps with the same keys in
different insertion order compare symmetrically. -/
theorem C10_witness :
    stateValuesEqual (SV.node [("x", .leaf "1"), ("y", .leaf "2")])
        (SV.node [("y", .leaf "2"), ("x", .leaf "1")]) =
      stateValuesEqual (SV.node [("y", .leaf "2"), ("x", .leaf "1")])
        (SV.node [("x", .leaf "1"), ("y", .leaf "2")]) :=
  C10_stateValuesEqual_structural.2.1
    (SV.node [("x", .leaf "1"), ("y", .leaf "2")])
    (SV.node [("y", .leaf "2"), ("x", .leaf "1")])
    (by decide) (by decide)

/-- C9: the changed getter of src/src/State.ts: undefined (none) for a state
without history; with a history, changed is true exactly when the action
list is non-empty or the value is not structurally equal to the history
value (the typeof disjunct of the source is subsumed by stateValuesEqual);
in particular an unchanged value with actions still reports changed. -/
theorem C9_changed_characterization {C : Type} (s : XState C) :
    (XState.history s = none → XState.changed s = none) ∧
    (∀ h, XState.history s = some h →
      XState.changed s =
        some (((XState.actions s).length != 0)
          || !stateValuesEqual (XState.value s) (XState.value h)) ∧
      (XState.changed s = some true ↔
        XState.actions s ≠ [] ∨
          stateValuesEqual (XState.value s) (XState.value h) = false)) := by
  cases s with
  | mk v c e acts hist =>
    constructor
    · intro h0
      simp only [XState.history] at h0
      subst h0
      rfl
    · intro h hh
      simp only [XState.history] at hh
      subst hh
      have hd : XState.changed (XState.mk v c e acts (some h)) =
          some (((acts.length != 0) || (SV.jsTypeOf v != SV.jsTypeOf (XState.value h)))
            || !stateValuesEqual v (XState.value h)) := rfl
      have hcol : (((acts.length != 0) || (SV.jsTypeOf v != SV.jsTypeOf (XState.value h)))
            || !stateValuesEqual v (XState.value h))
          = ((acts.length != 0) || !stateValuesEqual v (XState.value h)) := by
        by_cases ht : SV.jsTypeOf v = SV.jsTypeOf (XState.value h)
        · simp [ht]
        · have hf : stateValuesEqual v (XState.value h) = false :=
            stateValuesEqual_eq_false_of_jsTypeOf_ne _ _ ht
          simp [hf]
      have hch : XState.changed (XState.mk v c e acts (some h)) =
          some ((acts.length != 0) || !stateValuesEqual v (XState.value h)) :=
        hd.trans (congrArg some hcol)
      refine ⟨hch, ?_⟩
      rw [hch]
      simp only [Option.some.injEq, Bool.or_eq_true, bne_iff_ne, ne_eq,
        Bool.not_eq_true', XState.actions, XState.value]
      constructor
      · rintro (hl | hr)
        · exact Or.inl (fun hnil => hl (by simp [hnil]))
        · exact Or.inr hr
      · rintro (hl | hr)
        · exact Or.inl (fun hz => hl (List.length_eq_zero.mp hz))
        · exact Or.inr hr

/-- Witness for C9: a state whose value equals its history value but which
carries an action reports changed true. -/
theorem C9_witness :
    XState.changed (XState.mk (.leaf "a") (0 : Nat) "E"
        [ActionObject.mk "act" (.custom none)]
        (some (XState.mk (.leaf "a") 0 "i" [] none))) = some true :=
  ((C9_changed_characterization
      (XState.mk (.leaf "a") (0 : Nat) "E" [ActionObject.mk "act" (.custom none)]
        (some (XState.mk (.leaf "a") 0 "i" [] none)))).2
    (XState.mk (.leaf "a") 0 "i" [] none) rfl).2.mpr
      (Or.inl (by simp [XState.actions]))

/-- C1: an event with no enabled transition yields a State with the same
value, the same context, an empty action list, and changed false (the value
well-formedness hypothesis reflects that JavaScript objects have distinct
keys; the resolution hypothesis states that the current value is already in
canonical form, as values produced by the machine always are). -/
theorem C1_unhandled_event_inert {C : Type} (m : Machine C) (s : XState C) (e : EvType)
    (hres : resolveUnderO m.root (some (XState.value s)) = .ok (some (XState.value s)))
    (hsel : transNode m.actionMap m.root (some (XState.value s)) e (XState.context s) =
      .ok TR.unhandled)
    (hwf : svWf (XState.value s) = true) :
    machineTransition m s e =
      .ok (XState.mk (XState.value s) (XState.context s) e [] (some s)) ∧
    XState.changed (XState.mk (XState.value s) (XState.context s) e [] (some s)) =
      some false := by
  constructor
  · simp only [machineTransition, hres, bind, Except.bind, hsel, underToSV]
  · show some ((([] : List (ActionObject C)).length != 0)
        || ((SV.jsTypeOf (XState.value s) != SV.jsTypeOf (XState.value s))
          || !stateValuesEqual (XState.value s) (XState.value s))) = some false
    rw [stateValuesEqual_refl (XState.value s) hwf]
    simp

/-- Witness for C1: the light machine of the actions tests on the unhandled
FAKE event from green. -/
theorem C1_witness :
    machineTransition lightT (XState.mk (.leaf "green") () "init" [] none) "FAKE" =
      .ok (XState.mk (.leaf "green") () "FAKE" []
        (some (XState.mk (.leaf "green") () "init" [] none))) ∧
    XState.changed (XState.mk (.leaf "green") () "FAKE" []
      (some (XState.mk (.leaf "green") () "init" [] none))) = some false :=
  C1_unhandled_event_inert lightT (XState.mk (.leaf "green") () "init" [] none) "FAKE"
    rfl rfl rfl

/-- C2: assigns are raised: the next context is the fold of the assembled
action list (exits, transition actions, entries, in order) through the
assign actions, computed before the surfaced actions are handed out; assign
actions are removed from the surfaced list; and the interpreter executes
surfaced actions against the updated context, so the log machine started
from count zero logs 1 then 2 on two LOG events. -/
theorem C2_assigns_raised_and_removed :
    (∀ (C : Type) (s : XState C) (e : EvType) (v : SV) (ex ts ens : List (ActionObject C)),
      XState.context (assembleState s e v ex ts ens) =
        applyAssigns (XState.context s) e (ex ++ ts ++ ens) ∧
      XState.actions (assembleState s e v ex ts ens) = surfacedActs (ex ++ ts ++ ens) ∧
      ∀ a ∈ XState.actions (assembleState s e v ex ts ens), a.isAssign = false) ∧
    ((((start (mkInterp logT)).bind (fun i => send i "LOG")).bind
        (fun i => send i "LOG")).map (fun i => i.logs)) = .ok [1, 2] := by
  constructor
  · intro C s e v ex ts ens
    refine ⟨rfl, rfl, ?_⟩
    intro a ha
    have hf : a ∈ (ex ++ ts ++ ens).filter (fun x => !x.isAssign) := ha
    have hp := (List.mem_filter.mp hf).2
    simpa using hp
  · rfl

/-- Witness for C2 at a concrete assemble: an assign in the transition
action list updates the context of the produced State. -/
theorem C2_witness :
    XState.context (assembleState (XState.mk (.leaf "x") (0 : Nat) "init" [] none) "LOG"
        (.leaf "x") [] [ActionObject.mk "xstate.assign" (.assign (fun c _ => c + 1))] []) =
      applyAssigns 0 "LOG"
        (([] : List (ActionObject Nat)) ++
          [ActionObject.mk "xstate.assign" (.assign (fun c _ => c + 1))] ++ []) :=
  (C2_assigns_raised_and_removed.1 Nat (XState.mk (.leaf "x") 0 "init" [] none) "LOG"
    (.leaf "x") [] [ActionObject.mk "xstate.assign" (.assign (fun c _ => c + 1))] []).1

/-- C3: the surfaced action list of a fired transition is the exit actions
(child-to-parent, built by exitNode), then the transition actions in
declaration order, then the entry actions (parent-to-child, built by
enterNode), with parallel regions contributing per phase in declaration
order; validated on the parallel and the deeply nested machines of the
actions tests with their exact expected orders. -/
theorem C3_action_order :
    (∀ (C : Type) (m : Machine C) (s : XState C) (e : EvType) (under : Option SV)
        (v : Option SV) (ex ts ens : List (ActionObject C)),
      resolveUnderO m.root (some (XState.value s)) = .ok under →
      transNode m.actionMap m.root under e (XState.context s) = .ok (.fired v ex ts ens) →
      machineTransition m s e = .ok (assembleState s e (underToSV v) ex ts ens) ∧
      XState.actions (assembleState s e (underToSV v) ex ts ens) =
        surfacedActs (ex ++ ts ++ ens)) ∧
    (((initialState parallelT).bind (fun s0 => machineTransition parallelT s0 "CHANGE")).map
        (fun s => (XState.actions s).map ActionObject.type) =
      .ok ["exit_a1", "exit_b1", "do_a2", "another_do_a2", "do_b2",
        "enter_a2", "enter_b2"]) ∧
    ((machineTransition deepT (XState.mk (.node [("a", .leaf "a1")]) () "init" [] none)
        "CHANGE").map (fun s => (XState.actions s).map ActionObject.type) =
      .ok ["exit_a1", "exit_a", "another_exit_a",
        "enter_b", "another_enter_b", "enter_b1"]) := by
  refine ⟨?_, rfl, rfl⟩
  intro C m s e under v ex ts ens hres hsel
  constructor
  · simp only [machineTransition, hres, bind, Except.bind, hsel]
  · rfl

/-- Witness for C3 on the deep machine: the CHANGE transition from a.a1
assembles exits, transition actions and entries in order. -/
theorem C3_witness :
    machineTransition deepT (XState.mk (.node [("a", .leaf "a1")]) () "init" [] none)
        "CHANGE" =
      .ok (assembleState (XState.mk (.node [("a", .leaf "a1")]) () "init" [] none) "CHANGE"
        (underToSV (some (.node [("b", .leaf "b1")])))
        [ActionObject.mk "exit_a1" (.custom none), ActionObject.mk "exit_a" (.custom none),
          ActionObject.mk "another_exit_a" (.custom none)]
        []
        [ActionObject.mk "enter_b" (.custom none),
          ActionObject.mk "another_enter_b" (.custom none),
          ActionObject.mk "enter_b1" (.custom none)]) :=
  (C3_action_order.1 Unit deepT
    (XState.mk (.node [("a", .leaf "a1")]) () "init" [] none) "CHANGE"
    (some (.node [("a", .leaf "a1")])) (some (.node [("b", .leaf "b1")]))
    [ActionObject.mk "exit_a1" (.custom none), ActionObject.mk "exit_a" (.custom none),
      ActionObject.mk "another_exit_a" (.custom none)]
    []
    [ActionObject.mk "enter_b" (.custom none),
      ActionObject.mk "another_enter_b" (.custom none),
      ActionObject.mk "enter_b1" (.custom none)]
    rfl rfl).1

/-- C4: a self-transition selected on an atomic node with target its own key
re-runs the exit actions of the node first and its entry actions last
(around the transition actions) unless the transition is marked internal, in
which case neither is emitted; validated on the light machines: the NOTHING
self-transition on green yields exit_green then enter_green, and the
internal KEEP_GOING self-transition yields only its cancel action. -/
theorem C4_self_transition_exit_enter :
    (∀ (C : Type) (amap : List (String × ActionImpl C))
        (states : List (String × Node C)) (k : String) (n : Node C)
        (acts : List (ActionDef C)) (g : Option (C → EvType → Bool)),
      alookup states k = some n → Node.kind n = .atomic →
      applyBubble amap states k none (TransitionDef.mk (some k) g acts false) =
        .ok (.fired (some (.leaf k)) (resolveActs amap (Node.exitActsOf n))
          (resolveActs amap acts) (resolveActs amap (Node.entryActsOf n))) ∧
      applyBubble amap states k none (TransitionDef.mk (some k) g acts true) =
        .ok (.fired (some (.leaf k)) [] (resolveActs amap acts) [])) ∧
    ((machineTransition lightT (XState.mk (.leaf "green") () "init" [] none)
        "NOTHING").map (fun s => (XState.actions s).map ActionObject.type) =
      .ok ["exit_green", "enter_green"]) ∧
    ((machineTransition lightI (XState.mk (.leaf "green") () "init" [] none)
        "KEEP_GOING").map (fun s => (XState.actions s).map ActionObject.type) =
      .ok ["xstate.cancel"]) := by
  refine ⟨?_, rfl, rfl⟩
  intro C amap states k n acts g hl hk
  have hex : exitChild amap states k none = exitNode amap n none :=
    exitChild_eq_of_alookup amap states k n none hl
  have hen : enterChild amap states k = enterNode amap n :=
    enterChild_eq_of_alookup amap states k n hl
  cases n with
  | mk key kd ik st om en ex =>
    simp only [Node.kind] at hk
    subst hk
    have h1 : exitNode amap (Node.mk key .atomic ik st om en ex) none =
        .ok (resolveActs amap ex) := rfl
    have h2 : enterNode amap (Node.mk key .atomic ik st om en ex) =
        .ok (none, resolveActs amap en) := rfl
    constructor
    · simp only [applyBubble, Bool.false_and, Bool.false_eq_true, if_false,
        hex, h1, hen, h2, bind, Except.bind, Node.exitActsOf, Node.entryActsOf, reattach]
    · simp only [applyBubble, Bool.true_and, beq_self_eq_true, if_true, reattach]

/-- Witness for C4 on the light machine: the NOTHING self-transition on the
atomic green node. -/
theorem C4_witness :
    applyBubble ([] : List (String × ActionImpl Unit)) (Node.statesOf lightT.root)
        "green" none (TransitionDef.mk (some "green") none [] false) =
      .ok (.fired (some (.leaf "green"))
        (resolveActs [] (Node.exitActsOf (atomicN "green"
          [ ("TIMER", [T0 "yellow"]), ("POWER_OUTAGE", [T0 "red"]),
            ("NOTHING", [T0 "green"]) ] ["enter_green"] ["exit_green"])))
        (resolveActs [] [])
        (resolveActs [] (Node.entryActsOf (atomicN "green"
          [ ("TIMER", [T0 "yellow"]), ("POWER_OUTAGE", [T0 "red"]),
            ("NOTHING", [T0 "green"]) ] ["enter_green"] ["exit_green"])))) :=
  ((C4_self_transition_exit_enter.1 Unit [] (Node.statesOf lightT.root) "green"
    (atomicN "green"
      [ ("TIMER", [T0 "yellow"]), ("POWER_OUTAGE", [T0 "red"]),
        ("NOTHING", [T0 "green"]) ] ["enter_green"] ["exit_green"])
    [] none rfl rfl).1)

/-- C5: nextState is a read-only preview: it returns exactly the State the
pure transition function computes from the current State, and the
interpreter (its current State, timers, logs, delivery history) is returned
unchanged; validated on the started interpreter light machine, where the
preview of TIMER is yellow while the service state stays green with its
pending timer untouched. -/
theorem C5_nextState_preview :
    (∀ (C : Type) (i : Interp C) (e : EvType) (st : XState C) (i2 : Interp C),
      nextState i e = .ok (st, i2) →
      i2 = i ∧ machineTransition i.machine i.current e = .ok st) ∧
    (((start (mkInterp lightI)).bind (fun j => nextState j "TIMER")).map
        (fun p => (XState.value p.1, XState.value p.2.current, p.2.timers,
          p.2.logs, p.2.delivered)) =
      .ok (SV.leaf "yellow", SV.leaf "green",
        [Timer.mk 10 0 "TIMER" "TIMER"], [], [])) := by
  constructor
  · intro C i e st i2 h
    cases hmt : machineTransition i.machine i.current e with
    | error err =>
        simp only [nextState, hmt, bind, Except.bind] at h
        cases h
    | ok s2 =>
        simp only [nextState, hmt, bind, Except.bind, Except.ok.injEq, Prod.mk.injEq] at h
        obtain ⟨h1, h2⟩ := h
        exact ⟨h2.symm, congrArg Except.ok h1⟩
  · rfl

/-- Witness for C5: a running interpreter over the light machine in green
previews TIMER as yellow and is itself unchanged. -/
theorem C5_witness :
    (Interp.mk lightI IStatus.running (XState.mk (.leaf "green") () "init" [] none)
        0 0 [] [] []) =
      (Interp.mk lightI IStatus.running (XState.mk (.leaf "green") () "init" [] none)
        0 0 [] [] []) ∧
    machineTransition lightI (XState.mk (.leaf "green") () "init" [] none) "TIMER" =
      .ok (XState.mk (.leaf "yellow") () "TIMER"
        [ActionObject.mk "xstate.send" (.send "TIMER" (some 10) "TIMER")]
        (some (XState.mk (.leaf "green") () "init" [] none))) :=
  C5_nextState_preview.1 Unit
    (Interp.mk lightI IStatus.running (XState.mk (.leaf "green") () "init" [] none)
      0 0 [] [] [])
    "TIMER"
    (XState.mk (.leaf "yellow") () "TIMER"
      [ActionObject.mk "xstate.send" (.send "TIMER" (some 10) "TIMER")]
      (some (XState.mk (.leaf "green") () "init" [] none)))
    (Interp.mk lightI IStatus.running (XState.mk (.leaf "green") () "init" [] none)
      0 0 [] [] [])
    rfl

/-- With no pending timer, a clock increment only advances virtual time. -/
theorem increment_of_no_timers {C : Type} (i : Interp C) (ms : Nat)
    (h : i.timers = []) :
    increment i ms = .ok { i with now := i.now + ms } := by
  cases i with
  | mk m st cur now seq tms lg dl =>
    have h2 : tms = [] := h
    subst h2
    rfl

/-- With no pending timer, any sequence of clock increments only advances
virtual time. -/
theorem incrementAll_of_no_timers {C : Type} (ns : List Nat) :
    ∀ (i : Interp C), i.timers = [] →
      ∃ n2, incrementAll i ns = .ok { i with now := n2 } := by
  induction ns with
  | nil =>
      intro i h
      exact ⟨i.now, by cases i; rfl⟩
  | cons ms rest ih =>
      intro i h
      have h1 := increment_of_no_timers i ms h
      obtain ⟨n2, h2⟩ := ih { i with now := i.now + ms } h
      refine ⟨n2, ?_⟩
      simp only [incrementAll, h1, bind, Except.bind]
      exact h2

/-- C6: cancellation of a delayed send: cancelling an id for which no timer
is pending leaves the interpreter unchanged (a no-op); with no pending
timer, advancing the clock delivers nothing; and in the interpreter light
machine scenario, sending KEEP_GOING (whose action cancels the pending
TIMER send before its due time) leaves the service in green with no pending
timer, and every further sequence of clock increments delivers no event at
all, so the cancelled TIMER is never delivered. -/
theorem C6_cancel_delayed_send :
    (∀ (C : Type) (ctx : C) (e : EvType) (i : Interp C) (d : String),
      (∀ t ∈ i.timers, t.id ≠ d) →
      execAction ctx e i (ActionObject.mk "xstate.cancel" (.cancel d)) = i) ∧
    (∀ (C : Type) (i : Interp C) (ms : Nat), i.timers = [] →
      increment i ms = .ok { i with now := i.now + ms }) ∧
    (∀ ns : List Nat,
      ((((start (mkInterp lightI)).bind (fun i => increment i 5)).bind
          (fun i => send i "KEEP_GOING")).bind (fun i => incrementAll i ns)).map
        (fun i => (XState.value i.current, i.delivered, i.timers)) =
      .ok (SV.leaf "green", ["KEEP_GOING"], [])) := by
  refine ⟨?_, ?_, ?_⟩
  · intro C ctx e i d h
    show { i with timers := i.timers.filter (fun t => t.id != d) } = i
    have hf : i.timers.filter (fun t => t.id != d) = i.timers := by
      apply List.filter_eq_self.mpr
      intro t ht
      simpa [bne_iff_ne] using h t ht
    rw [hf]
  · intro C i ms h
    exact increment_of_no_timers i ms h
  · intro ns
    obtain ⟨I1, hI1, htm, hval, hdl⟩ :
        ∃ I1, (((start (mkInterp lightI)).bind (fun i => increment i 5)).bind
            (fun i => send i "KEEP_GOING")) = .ok I1 ∧
          I1.timers = [] ∧ XState.value I1.current = .leaf "green" ∧
          I1.delivered = ["KEEP_GOING"] :=
      ⟨_, rfl, rfl, rfl, rfl⟩
    rw [hI1]
    show (incrementAll I1 ns).map
        (fun i => (XState.value i.current, i.delivered, i.timers)) = _
    obtain ⟨n2, h2⟩ := incrementAll_of_no_timers ns I1 htm
    rw [h2]
    show Except.ok (XState.value I1.current, I1.delivered, I1.timers) = _
    rw [htm, hval, hdl]

/-- Witness for C6: the cancel no-op and the empty-timer increment at
concrete interpreters, and the scenario at a concrete increment list. -/
theorem C6_witness :
    execAction () "E" (mkInterp lightI) (ActionObject.mk "xstate.cancel" (.cancel "TIMER")) =
      mkInterp lightI ∧
    increment (mkInterp lightI) 7 = .ok { mkInterp lightI with now := 7 } ∧
    ((((start (mkInterp lightI)).bind (fun i => increment i 5)).bind
        (fun i => send i "KEEP_GOING")).bind (fun i => incrementAll i [10, 100])).map
      (fun i => (XState.value i.current, i.delivered, i.timers)) =
      .ok (SV.leaf "green", ["KEEP_GOING"], []) :=
  ⟨C6_cancel_delayed_send.1 Unit () "E" (mkInterp lightI) "TIMER" (by intro t ht; cases ht),
   C6_cancel_delayed_send.2.1 Unit (mkInterp lightI) 7 rfl,
   C6_cancel_delayed_send.2.2 [10, 100]⟩

/-- C7: a transition carrying an action name with no implementation in the
machine options still completes normally, and the unresolved action is
surfaced with a null executor; validated on the machine of the actions
option suite, where the E transition completes and surfaces undefinedAction
with executor none next to the resolved definedAction entries. -/
theorem C7_unknown_action_name :
    (∀ (C : Type) (amap : List (String × ActionImpl C)) (n : String),
      alookup amap n = none →
      resolveAct amap (.name n) = ActionObject.mk n (.custom none)) ∧
    (((initialState simpleT).bind (fun s0 => machineTransition simpleT s0 "E")).map
        (fun s => (XState.actions s).map (fun a => (a.type, a.executor))) =
      .ok [("definedAction", some "definedAction"),
        ("definedAction", some "definedAction"), ("undefinedAction", none)]) := by
  constructor
  · intro C amap n h
    simp only [resolveAct, h]
  · rfl

/-- Witness for C7: resolving an unknown name against an empty option map
yields a null executor. -/
theorem C7_witness :
    resolveAct ([] : List (String × ActionImpl Unit)) (.name "undefinedAction") =
      ActionObject.mk "undefinedAction" (.custom none) :=
  C7_unknown_action_name.1 Unit [] "undefinedAction" rfl

/-- C8: sending to an interpreter that has not been started fails with
InterpreterNotStarted, and after start the same send succeeds; validated on
the interpreter light machine with SOME_EVENT, which after start is simply
an unhandled event leaving the service running in green. -/
theorem C8_send_requires_start :
    (∀ (C : Type) (i : Interp C) (e : EvType), i.status = .notStarted →
      send i e = .error .interpreterNotStarted) ∧
    (send (mkInterp lightI) "SOME_EVENT" = .error .interpreterNotStarted) ∧
    (((start (mkInterp lightI)).bind (fun i => send i "SOME_EVENT")).map
        (fun i => (i.status, XState.value i.current)) =
      .ok (IStatus.running, SV.leaf "green")) := by
  refine ⟨?_, rfl, rfl⟩
  intro C i e h
  unfold send
  rw [h]

/-- Witness for C8: a fresh interpreter refuses a send. -/
theorem C8_witness :
    send (mkInterp logT) "LOG" = .error .interpreterNotStarted :=
  C8_send_requires_start.1 Nat (mkInterp logT) "LOG" rfl

end XCore
